import Mathlib

/-!
Verification development for the dns-proxy ingress gateway.

Rust strings are modelled as `List Char`; machine counters (`u64`, `u32`)
are modelled as `Nat` with explicit saturation / wrap-around where the
source uses saturating or wrapping arithmetic.  Stateful operations
(the rewriter cache, the metrics sink) are modelled by explicit state
passing; the async I/O of the DoT / DoQ front-ends is modelled as a
pure function from a connection script (the bytes and success flags the
outside world supplies) to the event trace and metric updates the
handler produces.
-/

/-- Rust `String` / `&str`, modelled as a list of characters. -/
abbrev Str := List Char

/-- Turn a Lean string literal into the `Str` model. -/
def str (s : String) : Str := s.toList

/-! ### SNI rewriter (src/rewriters/base.rs) -/

/-- Configuration of the rewriter (`RewriteConfig`); `base_domains`,
`target_suffix` and `rewrite_failure_strategy` as used by
`BaseSniRewriter`. -/
structure RewriteConfig where
  base_domains : List Str
  target_suffix : Str
  rewrite_failure_strategy : Str
deriving DecidableEq, Repr

/-- Result of a rewrite (`RewriteResult` in src/sni.rs); the field
named `prefix` in the source is called `pfx` here. -/
structure RewriteResult where
  original : Str
  pfx : Str
  target_hostname : Str
deriving DecidableEq, Repr

/-- Rust `str::strip_suffix`: remove `suf` from the end of `s` when it is
a suffix, otherwise `none`. -/
def stripSuffix? (s suf : Str) : Option Str :=
  if suf.isSuffixOf s then some (s.take (s.length - suf.length)) else none

/-- One iteration of the loop body of `BaseSniRewriter::extract_prefix`:
try to match a single base domain against `sni`; `none` means the loop
continues with the next base domain. -/
def matchBase (sni base : Str) : Option Str :=
  (stripSuffix? sni base).bind fun rest =>
    if rest = [] then none
    else if rest.getLast? = some '.' then
      if (stripSuffix? rest [ '.' ]).getD rest = [] then none
      else some ((stripSuffix? rest [ '.' ]).getD rest)
    else none

/-- The source function `extract_prefix`: first matching base domain, in
list order, wins. -/
def extractPfx (bds : List Str) (sni : Str) : Option Str :=
  match bds with
  | [] => none
  | b :: rest =>
      match matchBase sni b with
      | some p => some p
      | none => extractPfx rest sni

/-- The source function `build_target_hostname`. -/
def build_target_hostname (cfg : RewriteConfig) (p : Str) : Str :=
  p ++ cfg.target_suffix

/-- Mutable state of a `BaseSniRewriter`: the `sni_map` cache. -/
structure RewriterState where
  sni_map : List (Str × Str)
deriving DecidableEq, Repr

/-- `DashMap::insert`: overwrite the value stored under `k`. -/
def mapInsert (m : List (Str × Str)) (k v : Str) : List (Str × Str) :=
  (k, v) :: m.filter (fun kv => decide (kv.1 ≠ k))

/-- `BaseSniRewriter::rewrite`: the precondition checks, the prefix
extraction, the failure-strategy dispatch, and the cache insert of the
success path.  Returns the optional result together with the updated
rewriter state. -/
def rewrite (cfg : RewriteConfig) (st : RewriterState) (sni : Str) :
    Option RewriteResult × RewriterState :=
  if sni = [] then (none, st)
  else if cfg.base_domains = [] then (none, st)
  else if cfg.target_suffix.head? ≠ some '.' then (none, st)
  else
    match extractPfx cfg.base_domains sni with
    | none =>
        if cfg.rewrite_failure_strategy = str "passthrough" then
          (some ⟨sni, [], sni⟩, st)
        else (none, st)
    | some p =>
        let target := build_target_hostname cfg p
        (some ⟨sni, p, target⟩,
         ⟨mapInsert st.sni_map sni target⟩)

/-- A sequence of `rewrite` calls threaded through the rewriter state. -/
def rewriteSeq (cfg : RewriteConfig) (st : RewriterState) (hs : List Str) :
    RewriterState :=
  hs.foldl (fun s h => (rewrite cfg s h).2) st

/-- Test configuration used by several witnesses: the configuration of
`tests/rewriters_base.rs`, error strategy. -/
def cfgErr : RewriteConfig :=
  ⟨[str "example.com", str "example.org"], str ".example.cn", str "error"⟩

/-- Same base domains and suffix, passthrough strategy. -/
def cfgPass : RewriteConfig :=
  ⟨[str "example.com", str "example.org"], str ".example.cn", str "passthrough"⟩

example : extractPfx cfgErr.base_domains (str "www.example.org") = some (str "www") := by decide
example : extractPfx cfgErr.base_domains (str "example.com") = none := by decide
example : extractPfx cfgErr.base_domains (str "api.sub.example.com") = some (str "api.sub") := by decide
example : (rewrite cfgErr ⟨[]⟩ (str "www.example.org")).1 =
    some ⟨str "www.example.org", str "www", str "www.example.cn"⟩ := by decide
example : (rewrite cfgErr ⟨[]⟩ (str "unknown.com")).1 = none := by decide
example : (rewrite cfgPass ⟨[]⟩ (str "foo.bar")).1 =
    some ⟨str "foo.bar", [], str "foo.bar"⟩ := by decide
example : (rewrite cfgErr ⟨[]⟩ (str "www.example.org")).2.sni_map =
    [(str "www.example.org", str "www.example.cn")] := by decide

/-! ### Metrics sink (src/metrics.rs) -/

/-- The counters of the `Metrics` collector; the histogram is modelled
as the list of observed durations (in an abstract time unit). -/
structure Metrics where
  total_requests : Nat
  successful_requests : Nat
  failed_requests : Nat
  bytes_received : Nat
  bytes_sent : Nat
  sni_rewrites : Nat
  upstream_errors : Nat
  observations : List Nat
deriving DecidableEq, Repr

/-- A fresh `Metrics` collector: all counters zero. -/
def Metrics.new : Metrics := ⟨0, 0, 0, 0, 0, 0, 0, []⟩

/-- `Metrics::record_request`. -/
def record_request (m : Metrics) (success : Bool) (brv bsv dur : Nat) : Metrics :=
  { m with
    total_requests := m.total_requests + 1
    successful_requests := m.successful_requests + (if success then 1 else 0)
    failed_requests := m.failed_requests + (if success then 0 else 1)
    bytes_received := m.bytes_received + brv
    bytes_sent := m.bytes_sent + bsv
    observations := m.observations ++ [dur] }

/-- `Metrics::record_sni_rewrite`. -/
def record_sni_rewrite (m : Metrics) : Metrics :=
  { m with sni_rewrites := m.sni_rewrites + 1 }

/-- `Metrics::record_upstream_error`. -/
def record_upstream_error (m : Metrics) : Metrics :=
  { m with upstream_errors := m.upstream_errors + 1 }

/-! ### Rewrite phase of the HTTP proxy handler (src/proxy/http.rs, lines 39-51) -/

/-- The rewrite step of `handle_http_request`: call `rewrite` on the Host
header; on `None` fail the request (no metric recorded here); on `Some`
record an SNI rewrite. -/
def handleHttpRewritePhase (cfg : RewriteConfig) (rst : RewriterState)
    (m : Metrics) (host : Str) :
    Option RewriteResult × RewriterState × Metrics :=
  match (rewrite cfg rst host).1 with
  | none => (none, (rewrite cfg rst host).2, m)
  | some r => (some r, (rewrite cfg rst host).2, record_sni_rewrite m)

/-! ### Backoff counter (src/utils/backoff.rs) -/

/-- Largest `u64` value, the saturation bound of `saturating_mul`. -/
def U64MAX : Nat := 2 ^ 64 - 1

/-- `u64::saturating_mul`. -/
def satMul (a b : Nat) : Nat := min (a * b) U64MAX

/-- `2u64.saturating_pow e`. -/
def satPow2 (e : Nat) : Nat := min (2 ^ e) U64MAX

/-- The source function `exponential_backoff` (delay in milliseconds):
`base.saturating_mul(2.saturating_pow(attempt.min(10))).min(max)`. -/
def exponential_backoff (attempt base_delay_ms max_delay_ms : Nat) : Nat :=
  min (satMul base_delay_ms (satPow2 (min attempt 10))) max_delay_ms

/-- `BackoffCounter::next_delay`: the state is the `AtomicU32` counter.
`fetch_add` returns the old value and wraps at `2^32`; the store of `0`
happens when the old value was at least 10.  Returns the delay and the
new counter value. -/
def next_delay (c : Nat) (base_delay_ms max_delay_ms : Nat) : Nat × Nat :=
  (exponential_backoff c base_delay_ms max_delay_ms,
   if 10 ≤ c then 0 else (c + 1) % 2 ^ 32)

/-- The delays produced by `n` consecutive `next_delay` calls starting
from counter value `c`. -/
def delaysFrom : Nat → Nat → Nat → Nat → List Nat
  | 0, _, _, _ => []
  | n + 1, c, base, cap =>
      (next_delay c base cap).1 :: delaysFrom n (next_delay c base cap).2 base cap

example : delaysFrom 12 0 100 5000 =
    [100, 200, 400, 800, 1600, 3200, 5000, 5000, 5000, 5000, 5000, 100] := by decide

/-! ### DoT front-end (src/readers/dot.rs) -/

/-- Observable I/O actions of the DoT connection handler. -/
inductive DotEvent where
  | connectUpstream
  | tlsConnect
  | writeUpstream (bytes : List Nat)
  | readUpstream
  | writeClient (bytes : List Nat)
deriving DecidableEq, Repr

/-- A DoT connection script: what the outside world supplies to one
accepted connection.  `bytes` are modelled as `Nat` (values of `u8`);
`duration` is the elapsed time the timer reports. -/
structure DotScript where
  tlsAcceptOk : Bool
  readOk : Bool
  clientBytes : List Nat
  connectOk : Bool
  tlsOk : Bool
  writeOk : Bool
  respReadOk : Bool
  respBytes : List Nat
  clientWriteOk : Bool
  duration : Nat
deriving DecidableEq, Repr

/-- `DoTServer::handle_connection` on a script, for executions described
by the script: returns whether the handler returned `Ok`, the updated
metrics, and the trace of upstream-facing I/O events. -/
def dotHandleConnection (s : DotScript) (m : Metrics) :
    Bool × Metrics × List DotEvent :=
  if s.readOk = false then (false, m, [])
  else if s.clientBytes = [] then (true, m, [])
  else if s.connectOk = false then (false, m, [DotEvent.connectUpstream])
  else if s.tlsOk = false then
    (false, m, [DotEvent.connectUpstream, DotEvent.tlsConnect])
  else if s.writeOk = false then
    (false, m, [DotEvent.connectUpstream, DotEvent.tlsConnect,
                DotEvent.writeUpstream s.clientBytes])
  else if s.respReadOk = false then
    (false, m, [DotEvent.connectUpstream, DotEvent.tlsConnect,
                DotEvent.writeUpstream s.clientBytes, DotEvent.readUpstream])
  else if s.clientWriteOk = false then
    (false, m, [DotEvent.connectUpstream, DotEvent.tlsConnect,
                DotEvent.writeUpstream s.clientBytes, DotEvent.readUpstream,
                DotEvent.writeClient s.respBytes])
  else
    (true,
     record_request m true s.clientBytes.length s.respBytes.length s.duration,
     [DotEvent.connectUpstream, DotEvent.tlsConnect,
      DotEvent.writeUpstream s.clientBytes, DotEvent.readUpstream,
      DotEvent.writeClient s.respBytes])

/-- The per-connection task spawned by `DoTServer::start` (lines 66-91):
a TLS handshake error only logs; a handler error additionally records an
upstream error; a handler success leaves the handler metrics as they
are. -/
def dotConnectionTask (s : DotScript) (m : Metrics) : Metrics :=
  if s.tlsAcceptOk = false then m
  else
    match dotHandleConnection s m with
    | (true, m2, _) => m2
    | (false, m2, _) => record_upstream_error m2

/-! ### DoQ front-end (src/readers/doq.rs) -/

/-- Observable actions of the DoQ per-stream handler. -/
inductive DoQEvent where
  | connect (sni : Str)
  | openBi
  | upWrite (bytes : List Nat)
  | upFinish
  | clientWrite (bytes : List Nat)
  | clientFinish
deriving DecidableEq, Repr

/-- The server name hardcoded in `DoQServer::connect_upstream`:
`endpoint.connect(addr, "dns.google")`. -/
def doqConnectSni : Str := str "dns.google"

/-- One `read_buf` call on a stream delivered as a list of chunks: it
returns the bytes of the first pending chunk (the empty list at EOF).
A single call does not concatenate later chunks. -/
def readBufOnce (chunks : List (List Nat)) : List Nat :=
  (chunks.head?).getD []

/-- The body of one iteration of `DoQServer::handle_connection` on an
accepted bidi stream, for executions in which every I/O call succeeds:
a single `read_buf` of the client stream, skip if empty, otherwise
connect upstream (with the hardcoded SNI), open one bidi stream, write,
finish, a single `read_buf` of the response, write it back, finish. -/
def doqHandleStream (clientChunks upChunks : List (List Nat)) : List DoQEvent :=
  let buffer := readBufOnce clientChunks
  if buffer = [] then []
  else
    let response := readBufOnce upChunks
    [DoQEvent.connect doqConnectSni, DoQEvent.openBi,
     DoQEvent.upWrite buffer, DoQEvent.upFinish,
     DoQEvent.clientWrite response, DoQEvent.clientFinish]

/-- Modelled from the spec (§4.5, claim C4): the per-stream behaviour
the specification describes — read the client send-side to EOF
(concatenating every chunk), connect upstream presenting the configured
upstream hostname as SNI, open one bidi stream, write the client bytes,
finish, read the upstream response to EOF, write it back, finish. -/
def doqSpecStream (upstreamHost : Str) (clientChunks upChunks : List (List Nat)) :
    List DoQEvent :=
  [DoQEvent.connect upstreamHost, DoQEvent.openBi,
   DoQEvent.upWrite clientChunks.flatten, DoQEvent.upFinish,
   DoQEvent.clientWrite upChunks.flatten, DoQEvent.clientFinish]

/-! ### HTTP header forwarding (src/upstream/http.rs and src/readers/doh.rs) -/

/-- `hyper::HeaderMap::insert`: replace every value stored under `k`
by the single value `v`.  Header names are lowercase. -/
def hmInsert (m : List (Str × Str)) (k v : Str) : List (Str × Str) :=
  m.filter (fun kv => decide (kv.1 ≠ k)) ++ [(k, v)]

/-- The headers skipped by `forward_http_request` in
src/upstream/http.rs. -/
def skipHeaders : List Str :=
  [str "host", str "connection", str "keep-alive", str "transfer-encoding"]

/-- The header map `DoHServer::handle_get_request` /
`handle_post_request` build for the upstream request: copy every client
header, then overwrite `host` with the target hostname.  No header is
excluded. -/
def dohForwardHeaders (client : List (Str × Str)) (target : Str) :
    List (Str × Str) :=
  hmInsert (client.foldl (fun acc kv => hmInsert acc kv.1 kv.2) [])
    (str "host") target

/-- The header map `forward_http_request` builds: copy every client
header whose name is not in `skipHeaders`, then set `host` to the
target hostname. -/
def forwardHttpHeaders (client : List (Str × Str)) (target : Str) :
    List (Str × Str) :=
  hmInsert
    (client.foldl
      (fun acc kv => if kv.1 ∈ skipHeaders then acc else hmInsert acc kv.1 kv.2)
      [])
    (str "host") target

example : dohForwardHeaders [(str "connection", str "close")] (str "t") =
    [(str "connection", str "close"), (str "host", str "t")] := by decide
example : forwardHttpHeaders [(str "connection", str "close")] (str "t") =
    [(str "host", str "t")] := by decide

/-! ### Lemmas about the rewriter -/

theorem stripSuffix?_eq_some {s suf r : Str} :
    stripSuffix? s suf = some r ↔ s = r ++ suf := by
  unfold stripSuffix?
  constructor
  · intro h
    by_cases hsuf : suf.isSuffixOf s
    · rw [if_pos hsuf] at h
      obtain ⟨t, ht⟩ := List.isSuffixOf_iff_suffix.mp hsuf
      subst ht
      injection h with h
      have h2 : ((t ++ suf).take ((t ++ suf).length - suf.length)) = t := by
        simp [List.length_append, List.take_left]
      rw [h2] at h
      rw [← h]
    · rw [if_neg hsuf] at h
      exact absurd h (by simp)
  · intro h
    subst h
    have hsuf : suf.isSuffixOf (r ++ suf) :=
      List.isSuffixOf_iff_suffix.mpr ⟨r, rfl⟩
    rw [if_pos hsuf]
    congr 1
    simp [List.length_append, List.take_left]

theorem matchBase_eq_some {sni base p : Str} :
    matchBase sni base = some p ↔ p ≠ [] ∧ sni = p ++ '.' :: base := by
  constructor
  · intro h
    unfold matchBase at h
    cases hs : stripSuffix? sni base with
    | none => rw [hs] at h; exact absurd h (by simp)
    | some rest =>
        rw [hs] at h
        simp only [Option.some_bind] at h
        have hsni : sni = rest ++ base := stripSuffix?_eq_some.mp hs
        by_cases h1 : rest = []
        · rw [if_pos h1] at h; exact absurd h (by simp)
        · rw [if_neg h1] at h
          by_cases h2 : rest.getLast? = some '.'
          · rw [if_pos h2] at h
            obtain ⟨q, hq⟩ := List.getLast?_eq_some_iff.mp h2
            have hql : stripSuffix? rest [ '.' ] = some q :=
              stripSuffix?_eq_some.mpr hq
            rw [hql] at h
            simp only [Option.getD_some] at h
            by_cases h3 : q = []
            · rw [if_pos h3] at h; exact absurd h (by simp)
            · rw [if_neg h3] at h
              injection h with h
              subst h
              refine ⟨h3, ?_⟩
              rw [hsni, hq, List.append_assoc]
              rfl
          · rw [if_neg h2] at h; exact absurd h (by simp)
  · rintro ⟨hp, rfl⟩
    unfold matchBase
    have hs : stripSuffix? (p ++ '.' :: base) base = some (p ++ [ '.' ]) := by
      refine stripSuffix?_eq_some.mpr ?_
      rw [List.append_assoc]
      rfl
    rw [hs]
    simp only [Option.some_bind]
    have h1 : p ++ [ '.' ] ≠ [] := by simp
    rw [if_neg h1]
    have h2 : (p ++ [ '.' ]).getLast? = some '.' := List.getLast?_concat _
    rw [if_pos h2]
    have hql : stripSuffix? (p ++ [ '.' ]) [ '.' ] = some p :=
      stripSuffix?_eq_some.mpr rfl
    rw [hql]
    simp only [Option.getD_some]
    rw [if_neg hp]

theorem extractPfx_some_exists {bds : List Str} {sni p : Str}
    (h : extractPfx bds sni = some p) :
    ∃ b ∈ bds, matchBase sni b = some p := by
  induction bds with
  | nil => exact absurd h (by simp [extractPfx])
  | cons b rest ih =>
      unfold extractPfx at h
      cases hb : matchBase sni b with
      | some q =>
          rw [hb] at h
          injection h with h
          subst h
          exact ⟨b, List.mem_cons_self _ _, hb⟩
      | none =>
          rw [hb] at h
          obtain ⟨c, hc, hcm⟩ := ih h
          exact ⟨c, List.mem_cons_of_mem _ hc, hcm⟩

theorem extractPfx_none_all {bds : List Str} {sni : Str}
    (h : extractPfx bds sni = none) :
    ∀ b ∈ bds, matchBase sni b = none := by
  induction bds with
  | nil => intro b hb; exact absurd hb (by simp)
  | cons b rest ih =>
      unfold extractPfx at h
      cases hb : matchBase sni b with
      | some q => rw [hb] at h; exact absurd h (by simp)
      | none =>
          rw [hb] at h
          intro c hc
          rcases List.mem_cons.mp hc with hcb | hcr
          · rw [hcb]; exact hb
          · exact ih h c hcr

theorem extractPfx_none_of_all {bds : List Str} {sni : Str}
    (h : ∀ b ∈ bds, matchBase sni b = none) :
    extractPfx bds sni = none := by
  induction bds with
  | nil => rfl
  | cons b rest ih =>
      unfold extractPfx
      rw [h b (List.mem_cons_self _ _)]
      exact ih (fun c hc => h c (List.mem_cons_of_mem _ hc))

theorem extractPfx_first_match {bds : List Str} {sni p : Str}
    (i : Nat) (hi : i < bds.length)
    (hmatch : matchBase sni (bds.get ⟨i, hi⟩) = some p)
    (hbefore : ∀ j (hj : j < i), matchBase sni (bds.get ⟨j, hj.trans hi⟩) = none) :
    extractPfx bds sni = some p := by
  induction bds generalizing i with
  | nil => exact absurd hi (by simp)
  | cons b rest ih =>
      unfold extractPfx
      cases i with
      | zero =>
          simp only [List.get] at hmatch
          rw [hmatch]
      | succ k =>
          have hb0 : matchBase sni b = none := hbefore 0 (Nat.succ_pos k)
          rw [hb0]
          exact ih k (Nat.lt_of_succ_lt_succ hi) hmatch
            (fun j hj => hbefore (j + 1) (Nat.succ_lt_succ hj))

/-! ### Claim theorems: the rewriter -/

/-- C1.  Under the `error` failure strategy, `rewrite(h)` returns `Some r`
iff the preconditions hold (non-empty hostname, non-empty base-domain
list, target suffix starting with a dot) and some base domain `b` in
`base_domains` satisfies `h = p ++ "." ++ b` for a non-empty `p`; and
every returned result has `original = h`, a non-empty `prefix` arising
from such a decomposition, and
`target_hostname = prefix ++ target_suffix`. -/
theorem C1_rewrite_error_characterization (cfg : RewriteConfig)
    (st : RewriterState) (h : Str)
    (hstrat : cfg.rewrite_failure_strategy = str "error") :
    ((∃ r, (rewrite cfg st h).1 = some r) ↔
      (h ≠ [] ∧ cfg.base_domains ≠ [] ∧ cfg.target_suffix.head? = some '.' ∧
        ∃ b ∈ cfg.base_domains, ∃ p, p ≠ [] ∧ h = p ++ '.' :: b))
    ∧ (∀ r, (rewrite cfg st h).1 = some r →
        r.original = h ∧ r.pfx ≠ [] ∧
        (∃ b ∈ cfg.base_domains, h = r.pfx ++ '.' :: b) ∧
        r.target_hostname = r.pfx ++ cfg.target_suffix) := by
  by_cases h0 : h = []
  · simp only [rewrite, if_pos h0]
    constructor
    · constructor
      · rintro ⟨r, hr⟩; exact absurd hr (by simp)
      · rintro ⟨hne, _⟩; exact absurd h0 hne
    · intro r hr; exact absurd hr (by simp)
  · by_cases h1 : cfg.base_domains = []
    · simp only [rewrite, if_neg h0, if_pos h1]
      constructor
      · constructor
        · rintro ⟨r, hr⟩; exact absurd hr (by simp)
        · rintro ⟨_, hbd, _⟩; exact absurd h1 hbd
      · intro r hr; exact absurd hr (by simp)
    · by_cases h2 : cfg.target_suffix.head? = some '.'
      · have h2n : ¬ (cfg.target_suffix.head? ≠ some '.') := fun hc => hc h2
        cases hx : extractPfx cfg.base_domains h with
        | some p =>
            simp only [rewrite, if_neg h0, if_neg h1, if_neg h2n, hx]
            obtain ⟨b, hb, hm⟩ := extractPfx_some_exists hx
            obtain ⟨hpne, heq⟩ := matchBase_eq_some.mp hm
            constructor
            · constructor
              · intro _; exact ⟨h0, h1, h2, b, hb, p, hpne, heq⟩
              · intro _; exact ⟨⟨h, p, build_target_hostname cfg p⟩, rfl⟩
            · intro r hr
              injection hr with hr
              subst hr
              exact ⟨rfl, hpne, ⟨b, hb, heq⟩, rfl⟩
        | none =>
            have hpass : ¬ (cfg.rewrite_failure_strategy = str "passthrough") := by
              rw [hstrat]; decide
            simp only [rewrite, if_neg h0, if_neg h1, if_neg h2n, hx, if_neg hpass]
            constructor
            · constructor
              · rintro ⟨r, hr⟩; exact absurd hr (by simp)
              · rintro ⟨_, _, _, b, hb, p, hpne, heq⟩
                have hm : matchBase h b = some p := matchBase_eq_some.mpr ⟨hpne, heq⟩
                have := extractPfx_none_all hx b hb
                rw [this] at hm
                exact absurd hm (by simp)
            · intro r hr; exact absurd hr (by simp)
      · have h2p : cfg.target_suffix.head? ≠ some '.' := h2
        simp only [rewrite, if_neg h0, if_neg h1, if_pos h2p]
        constructor
        · constructor
          · rintro ⟨r, hr⟩; exact absurd hr (by simp)
          · rintro ⟨_, _, hts, _⟩; exact absurd hts h2
        · intro r hr; exact absurd hr (by simp)

/-- Witness for C1 at the test configuration and hostname
`www.example.org`. -/
theorem C1_rewrite_error_characterization_witness :
    cfgErr.rewrite_failure_strategy = str "error" ∧
    (((∃ r, (rewrite cfgErr ⟨[]⟩ (str "www.example.org")).1 = some r) ↔
        (str "www.example.org" ≠ [] ∧ cfgErr.base_domains ≠ [] ∧
          cfgErr.target_suffix.head? = some '.' ∧
          ∃ b ∈ cfgErr.base_domains, ∃ p, p ≠ [] ∧
            str "www.example.org" = p ++ '.' :: b))
      ∧ (∀ r, (rewrite cfgErr ⟨[]⟩ (str "www.example.org")).1 = some r →
          r.original = str "www.example.org" ∧ r.pfx ≠ [] ∧
          (∃ b ∈ cfgErr.base_domains, str "www.example.org" = r.pfx ++ '.' :: b) ∧
          r.target_hostname = r.pfx ++ cfgErr.target_suffix)) :=
  ⟨by decide,
   C1_rewrite_error_characterization cfgErr ⟨[]⟩ (str "www.example.org") (by decide)⟩

/-- C2.  Under the `passthrough` failure strategy, when the
preconditions hold and no base domain matches, `rewrite(h)` returns
`Some` with `original = h`, empty `prefix` and `target_hostname = h`. -/
theorem C2_rewrite_passthrough (cfg : RewriteConfig) (st : RewriterState)
    (h : Str)
    (hstrat : cfg.rewrite_failure_strategy = str "passthrough")
    (hne : h ≠ []) (hbd : cfg.base_domains ≠ [])
    (hts : cfg.target_suffix.head? = some '.')
    (hnomatch : ∀ b ∈ cfg.base_domains, ¬ ∃ p, p ≠ [] ∧ h = p ++ '.' :: b) :
    (rewrite cfg st h).1 = some ⟨h, [], h⟩ := by
  have hx : extractPfx cfg.base_domains h = none := by
    refine extractPfx_none_of_all (fun b hb => ?_)
    cases hm : matchBase h b with
    | none => rfl
    | some p =>
        obtain ⟨hp, heq⟩ := matchBase_eq_some.mp hm
        exact absurd ⟨p, hp, heq⟩ (hnomatch b hb)
  have htsn : ¬ (cfg.target_suffix.head? ≠ some '.') := fun hc => hc hts
  simp only [rewrite, if_neg hne, if_neg hbd, if_neg htsn, hx, if_pos hstrat]

/-- Witness for C2 at the passthrough test configuration and hostname
`foo.bar`. -/
theorem C2_rewrite_passthrough_witness :
    cfgPass.rewrite_failure_strategy = str "passthrough" ∧
    (rewrite cfgPass ⟨[]⟩ (str "foo.bar")).1 =
      some ⟨str "foo.bar", [], str "foo.bar"⟩ := by
  refine ⟨by decide, ?_⟩
  refine C2_rewrite_passthrough cfgPass ⟨[]⟩ (str "foo.bar")
    (by decide) (by decide) (by decide) (by decide) ?_
  intro b hb hex
  obtain ⟨p, hp, heq⟩ := hex
  have hlen := congrArg List.length heq
  have h7 : (str "foo.bar").length = 7 := by decide
  have hb11 : b.length = 11 := by fin_cases hb <;> decide
  rw [h7] at hlen
  simp [List.length_append, hb11] at hlen

/-- C3.  Base-domain matching is order-sensitive (the first matching
entry, in list order, determines the result of the prefix extraction)
and case-sensitive (an entry matches only when it is byte-for-byte a
suffix of the hostname after a dot, so an entry differing from the
matched suffix only in letter case — in particular any distinct entry
of the same length — does not match). -/
theorem C3_first_match_case_sensitive :
    (∀ (bds : List Str) (h p : Str) (i : Nat) (hi : i < bds.length),
        matchBase h (bds.get ⟨i, hi⟩) = some p →
        (∀ j (hj : j < i), matchBase h (bds.get ⟨j, hj.trans hi⟩) = none) →
        extractPfx bds h = some p)
    ∧ (∀ (h b p : Str), matchBase h b = some p → h = p ++ '.' :: b)
    ∧ (∀ (h b bv p : Str), matchBase h b = some p → bv.length = b.length →
        bv ≠ b → matchBase h bv = none) := by
  refine ⟨fun bds h p i hi hm hb => extractPfx_first_match i hi hm hb, ?_, ?_⟩
  · intro h b p hm
    exact (matchBase_eq_some.mp hm).2
  · intro h b bv p hm hlen hne
    cases hmv : matchBase h bv with
    | none => rfl
    | some q =>
        obtain ⟨hp, heq⟩ := matchBase_eq_some.mp hm
        obtain ⟨hq, heqv⟩ := matchBase_eq_some.mp hmv
        have heq2 : p ++ '.' :: b = q ++ '.' :: bv := by rw [← heq, heqv]
        have hlen2 : ('.' :: b).length = ('.' :: bv).length := by
          simp [hlen]
        obtain ⟨_, htail⟩ := List.append_inj' heq2 hlen2
        injection htail with _ htail
        exact absurd htail.symm hne

/-- Witness for C3: with base domains `["b", "c.b"]` the hostname
`a.c.b` is matched by both entries and the first wins; and the
case-variant `Example.com` of `example.com` does not match
`www.example.com`. -/
theorem C3_first_match_case_sensitive_witness :
    extractPfx [str "b", str "c.b"] (str "a.c.b") = some (str "a.c") ∧
    matchBase (str "www.example.com") (str "Example.com") = none := by
  constructor
  · exact C3_first_match_case_sensitive.1 [str "b", str "c.b"]
      (str "a.c.b") (str "a.c") 0 (by decide) (by decide)
      (fun j hj => absurd hj (Nat.not_lt_zero j))
  · exact C3_first_match_case_sensitive.2.2 (str "www.example.com")
      (str "example.com") (str "Example.com") (str "www")
      (by decide) (by decide) (by decide)

/-- Case analysis of `rewrite`: either it fails and leaves the state
unchanged, or it passes through (state unchanged, no matching base), or
it succeeds on an extracted prefix and inserts the mapping. -/
theorem rewrite_cases (cfg : RewriteConfig) (st : RewriterState) (h : Str) :
    ((rewrite cfg st h).1 = none ∧ (rewrite cfg st h).2 = st)
    ∨ ((rewrite cfg st h).1 = some ⟨h, [], h⟩ ∧ (rewrite cfg st h).2 = st ∧
        extractPfx cfg.base_domains h = none)
    ∨ (∃ p, extractPfx cfg.base_domains h = some p ∧
        (rewrite cfg st h).1 = some ⟨h, p, build_target_hostname cfg p⟩ ∧
        (rewrite cfg st h).2 =
          ⟨mapInsert st.sni_map h (build_target_hostname cfg p)⟩) := by
  unfold rewrite
  by_cases h0 : h = []
  · rw [if_pos h0]; exact Or.inl ⟨rfl, rfl⟩
  · rw [if_neg h0]
    by_cases h1 : cfg.base_domains = []
    · rw [if_pos h1]; exact Or.inl ⟨rfl, rfl⟩
    · rw [if_neg h1]
      by_cases h2 : cfg.target_suffix.head? ≠ some '.'
      · rw [if_pos h2]; exact Or.inl ⟨rfl, rfl⟩
      · rw [if_neg h2]
        cases hx : extractPfx cfg.base_domains h with
        | none =>
            by_cases hs : cfg.rewrite_failure_strategy = str "passthrough"
            · rw [if_pos hs]; exact Or.inr (Or.inl ⟨rfl, rfl, rfl⟩)
            · rw [if_neg hs]; exact Or.inl ⟨rfl, rfl⟩
        | some q => exact Or.inr (Or.inr ⟨q, rfl, rfl, rfl⟩)

/-- Invariant of the rewriter cache: every entry maps a hostname with a
successfully extractable prefix to that prefix extended with the target
suffix. -/
def cacheInv (cfg : RewriteConfig) (st : RewriterState) : Prop :=
  ∀ kv ∈ st.sni_map,
    ∃ p, extractPfx cfg.base_domains kv.1 = some p ∧
      kv.2 = p ++ cfg.target_suffix

theorem mem_mapInsert {m : List (Str × Str)} {k v : Str} {kv : Str × Str}
    (h : kv ∈ mapInsert m k v) : kv = (k, v) ∨ kv ∈ m := by
  rcases List.mem_cons.mp h with h | h
  · exact Or.inl h
  · exact Or.inr (List.mem_filter.mp h).1

theorem rewrite_preserves_cacheInv (cfg : RewriteConfig) (st : RewriterState)
    (h : Str) (hinv : cacheInv cfg st) : cacheInv cfg (rewrite cfg st h).2 := by
  rcases rewrite_cases cfg st h with ⟨_, h2⟩ | ⟨_, h2, _⟩ | ⟨p, hx, _, h2⟩
  · rw [h2]; exact hinv
  · rw [h2]; exact hinv
  · rw [h2]
    intro kv hkv
    rcases mem_mapInsert hkv with rfl | hm
    · exact ⟨p, hx, rfl⟩
    · exact hinv kv hm

theorem rewriteSeq_cacheInv (cfg : RewriteConfig) (hs : List Str) :
    ∀ st, cacheInv cfg st → cacheInv cfg (rewriteSeq cfg st hs) := by
  induction hs with
  | nil => intro st h; exact h
  | cons a rest ih =>
      intro st h
      exact ih _ (rewrite_preserves_cacheInv cfg st a h)

/-- C10.  After any sequence of rewrite calls on a fresh rewriter, every
cache entry `(k, v)` satisfies `extract_prefix(k) = Some p` with
`v = p ++ target_suffix`; in particular every cached value ends with the
target suffix and no entry comes from a passthrough (a hostname with no
extractable prefix is never a key). -/
theorem C10_cache_invariant (cfg : RewriteConfig) (hs : List Str) :
    (∀ kv ∈ (rewriteSeq cfg ⟨[]⟩ hs).sni_map,
        ∃ p, extractPfx cfg.base_domains kv.1 = some p ∧
          kv.2 = p ++ cfg.target_suffix)
    ∧ (∀ kv ∈ (rewriteSeq cfg ⟨[]⟩ hs).sni_map,
        cfg.target_suffix <:+ kv.2 ∧ extractPfx cfg.base_domains kv.1 ≠ none) := by
  have hinv : cacheInv cfg (rewriteSeq cfg ⟨[]⟩ hs) :=
    rewriteSeq_cacheInv cfg hs ⟨[]⟩ (fun kv hkv => absurd hkv (by simp))
  refine ⟨hinv, ?_⟩
  intro kv hkv
  obtain ⟨p, hx, hv⟩ := hinv kv hkv
  refine ⟨⟨p, hv.symm⟩, ?_⟩
  rw [hx]
  simp

/-- Witness for C10 after rewriting `www.example.org` on a fresh
rewriter. -/
theorem C10_cache_invariant_witness :
    (∃ p, extractPfx cfgErr.base_domains (str "www.example.org") = some p ∧
       str "www.example.cn" = p ++ cfgErr.target_suffix) ∧
    cfgErr.target_suffix <:+ str "www.example.cn" :=
  ⟨(C10_cache_invariant cfgErr [str "www.example.org"]).1
      (str "www.example.org", str "www.example.cn") (by decide),
   ((C10_cache_invariant cfgErr [str "www.example.org"]).2
      (str "www.example.org", str "www.example.cn") (by decide)).1⟩

/-! ### Claim theorems: backoff -/

/-- C7.  `next_delay` returns `min(base * 2^attempt, max)` with the
exponent clamped at 10; the counter resets to zero on the call that
observes attempt 10 (the 11th call of a fresh counter); with
`(base, max) = (100, 5000)` a fresh counter produces
100, 200, 400, 800, ... capped at 5000 and restarts at 100 on the call
after the reset. -/
theorem C7_backoff_next_delay :
    (∀ c base cap, cap ≤ U64MAX →
        (next_delay c base cap).1 = min (base * 2 ^ min c 10) cap)
    ∧ (∀ c base cap, 10 ≤ c → (next_delay c base cap).2 = 0)
    ∧ delaysFrom 12 0 100 5000 =
        [100, 200, 400, 800, 1600, 3200, 5000, 5000, 5000, 5000, 5000, 100] := by
  refine ⟨?_, ?_, by decide⟩
  · intro c base cap hcap
    unfold next_delay exponential_backoff satMul satPow2
    have he : min ((2 : Nat) ^ min c 10) U64MAX = 2 ^ min c 10 := by
      have hle : (2 : Nat) ^ min c 10 ≤ 2 ^ 10 :=
        Nat.pow_le_pow_right (by norm_num) (Nat.min_le_right _ _)
      have h10 : (2 : Nat) ^ 10 ≤ U64MAX := by decide
      exact Nat.min_eq_left (le_trans hle h10)
    rw [he, Nat.min_assoc, Nat.min_eq_right hcap]
  · intro c base cap hc
    unfold next_delay
    simp [hc]

/-- Witness for C7 at attempt 3 and at the reset point. -/
theorem C7_backoff_next_delay_witness :
    (5000 ≤ U64MAX ∧ (next_delay 3 100 5000).1 = min (100 * 2 ^ min 3 10) 5000) ∧
    ((10 : Nat) ≤ 10 ∧ (next_delay 10 100 5000).2 = 0) :=
  ⟨⟨by decide, C7_backoff_next_delay.1 3 100 5000 (by decide)⟩,
   ⟨le_refl 10, C7_backoff_next_delay.2.1 10 100 5000 (le_refl 10)⟩⟩

/-! ### Claim theorems: DoT front-end -/

/-- C8.  A DoT connection whose client byte stream is empty at EOF makes
the handler return `Ok` with no upstream I/O event (in particular no
upstream TCP connect) and with the metrics unchanged; the surrounding
task also leaves the metrics unchanged. -/
theorem C8_dot_empty_buffer (s : DotScript) (m : Metrics)
    (hread : s.readOk = true) (hempty : s.clientBytes = []) :
    dotHandleConnection s m = (true, m, []) ∧
    (s.tlsAcceptOk = true → dotConnectionTask s m = m) := by
  have h1 : ¬ (s.readOk = false) := by simp [hread]
  have hfirst : dotHandleConnection s m = (true, m, []) := by
    unfold dotHandleConnection
    rw [if_neg h1, if_pos hempty]
  refine ⟨hfirst, fun htls => ?_⟩
  have h2 : ¬ (s.tlsAcceptOk = false) := by simp [htls]
  unfold dotConnectionTask
  rw [if_neg h2, hfirst]

/-- Witness for C8 on a concrete empty-stream script. -/
theorem C8_dot_empty_buffer_witness :
    dotHandleConnection ⟨true, true, [], true, true, true, true, [], true, 0⟩
        Metrics.new = (true, Metrics.new, []) ∧
    dotConnectionTask ⟨true, true, [], true, true, true, true, [], true, 0⟩
        Metrics.new = Metrics.new := by
  have h := C8_dot_empty_buffer
    ⟨true, true, [], true, true, true, true, [], true, 0⟩ Metrics.new rfl rfl
  exact ⟨h.1, h.2 rfl⟩

theorem dotHandle_fail_metrics (s : DotScript) (m : Metrics)
    (h : (dotHandleConnection s m).1 = false) :
    (dotHandleConnection s m).2.1 = m := by
  unfold dotHandleConnection at h ⊢
  split_ifs at h ⊢ <;> simp_all

theorem dotHandle_success_metrics (s : DotScript) (m : Metrics)
    (h : (dotHandleConnection s m).1 = true) (hne : s.clientBytes ≠ []) :
    (dotHandleConnection s m).2.1 =
      record_request m true s.clientBytes.length s.respBytes.length s.duration := by
  unfold dotHandleConnection at h ⊢
  split_ifs at h ⊢
  all_goals simp_all

/-- The proposition C6 claims: a failed DoT connection records a failed
request and an upstream error; a successful one records the request
with its byte counts and duration. -/
def claimC6 : Prop :=
  ∀ (s : DotScript) (m : Metrics), s.tlsAcceptOk = true →
    ((dotHandleConnection s m).1 = false →
      (dotConnectionTask s m).failed_requests = m.failed_requests + 1 ∧
      (dotConnectionTask s m).upstream_errors = m.upstream_errors + 1)
    ∧ ((dotHandleConnection s m).1 = true → s.clientBytes ≠ [] →
      dotConnectionTask s m =
        record_request m true s.clientBytes.length s.respBytes.length s.duration)

/-- C6 counterexample: a connection whose upstream TCP connect fails
leaves `failed_requests` unchanged (only `upstream_errors` is
incremented), contradicting the claim. -/
theorem C6_dot_metrics_counterexample : ¬ claimC6 := by
  intro hcl
  have h := ((hcl ⟨true, true, [1], false, true, true, true, [], true, 0⟩
      Metrics.new rfl).1 (by decide)).1
  exact absurd h (by decide)

/-- C6 (amended).  A TLS-handshake failure records nothing; a failed
per-request handling records exactly one `upstream_error` — it does not
increment `failed_requests` or `total_requests`; a successful handling
of a non-empty request records a successful request with the byte
counts and the elapsed duration. -/
theorem C6_dot_metrics_amended (s : DotScript) (m : Metrics) :
    (s.tlsAcceptOk = false → dotConnectionTask s m = m)
    ∧ (s.tlsAcceptOk = true → (dotHandleConnection s m).1 = false →
        dotConnectionTask s m = record_upstream_error m)
    ∧ (s.tlsAcceptOk = true → (dotHandleConnection s m).1 = true →
        s.clientBytes ≠ [] →
        dotConnectionTask s m =
          record_request m true s.clientBytes.length s.respBytes.length
            s.duration)
    ∧ ((record_upstream_error m).failed_requests = m.failed_requests ∧
       (record_upstream_error m).total_requests = m.total_requests ∧
       (record_upstream_error m).upstream_errors = m.upstream_errors + 1) := by
  refine ⟨?_, ?_, ?_, rfl, rfl, rfl⟩
  · intro htls
    unfold dotConnectionTask
    rw [if_pos htls]
  · intro htls hfail
    have hm := dotHandle_fail_metrics s m hfail
    have h2 : ¬ (s.tlsAcceptOk = false) := by simp [htls]
    unfold dotConnectionTask
    rw [if_neg h2]
    rcases hh : dotHandleConnection s m with ⟨ok, m2, tr⟩
    rw [hh] at hfail hm
    simp only at hfail hm
    subst hfail
    subst hm
    rfl
  · intro htls hok hne
    have hm := dotHandle_success_metrics s m hok hne
    have h2 : ¬ (s.tlsAcceptOk = false) := by simp [htls]
    unfold dotConnectionTask
    rw [if_neg h2]
    rcases hh : dotHandleConnection s m with ⟨ok, m2, tr⟩
    rw [hh] at hok hm
    simp only at hok hm
    subst hok
    subst hm
    rfl

/-- Witness for C6 (amended) on a failing and on a succeeding script. -/
theorem C6_dot_metrics_amended_witness :
    dotConnectionTask ⟨true, true, [1], false, true, true, true, [], true, 0⟩
        Metrics.new = record_upstream_error Metrics.new ∧
    dotConnectionTask ⟨true, true, [5], true, true, true, true, [7, 8], true, 9⟩
        Metrics.new = record_request Metrics.new true 1 2 9 := by
  constructor
  · exact (C6_dot_metrics_amended
      ⟨true, true, [1], false, true, true, true, [], true, 0⟩
      Metrics.new).2.1 rfl (by decide)
  · exact (C6_dot_metrics_amended
      ⟨true, true, [5], true, true, true, true, [7, 8], true, 9⟩
      Metrics.new).2.2.1 rfl (by decide) (by decide)

/-! ### Claim theorems: DoQ front-end -/

/-- C4 counterexample: with a two-chunk client stream the handler
forwards only the first chunk and presents the hardcoded SNI
`dns.google`, not the upstream hostname. -/
theorem C4_doq_stream_counterexample :
    ¬ (∀ (host : Str) (clientChunks upChunks : List (List Nat)),
        doqHandleStream clientChunks upChunks =
          doqSpecStream host clientChunks upChunks) := by
  intro hcl
  exact absurd (hcl (str "upstream.example") [[1], [2]] [[3]]) (by decide)

/-- C4 (amended).  Per bidi stream the handler performs a single
`read_buf` (not a read to EOF) of the client stream and of the upstream
response, and it connects upstream with the hardcoded SNI `dns.google`
regardless of the configured upstream hostname: its behaviour equals the
specified sequence applied to the one-chunk truncations of both streams
and to the hostname `dns.google`; an empty first chunk produces no
upstream I/O at all. -/
theorem C4_doq_stream_amended :
    (∀ clientChunks upChunks : List (List Nat),
        readBufOnce clientChunks ≠ [] →
        doqHandleStream clientChunks upChunks =
          doqSpecStream doqConnectSni [readBufOnce clientChunks]
            [readBufOnce upChunks])
    ∧ (∀ clientChunks upChunks : List (List Nat),
        readBufOnce clientChunks = [] →
        doqHandleStream clientChunks upChunks = []) := by
  constructor
  · intro cc uc hne
    simp [doqHandleStream, doqSpecStream, hne]
  · intro cc uc he
    simp [doqHandleStream, he]

/-- Witness for C4 (amended) on a two-chunk client stream. -/
theorem C4_doq_stream_amended_witness :
    doqHandleStream [[1], [2]] [[3]] =
      doqSpecStream doqConnectSni [readBufOnce [[1], [2]]] [readBufOnce [[3]]] :=
  C4_doq_stream_amended.1 [[1], [2]] [[3]] (by decide)

/-! ### Claim theorems: rewrite side effects (C9) -/

theorem phase_eq_none {cfg : RewriteConfig} {rst : RewriterState}
    {m : Metrics} {host : Str}
    (h1 : (rewrite cfg rst host).1 = none) :
    handleHttpRewritePhase cfg rst m host =
      (none, (rewrite cfg rst host).2, m) := by
  unfold handleHttpRewritePhase
  rw [h1]

theorem phase_eq_some {cfg : RewriteConfig} {rst : RewriterState}
    {m : Metrics} {host : Str} {r : RewriteResult}
    (h1 : (rewrite cfg rst host).1 = some r) :
    handleHttpRewritePhase cfg rst m host =
      (some r, (rewrite cfg rst host).2, record_sni_rewrite m) := by
  unfold handleHttpRewritePhase
  rw [h1]

/-- The proposition C9 claims: a successful rewrite inserts the cache
mapping and increments `sni_rewrites` by one; a passthrough or failed
rewrite performs neither effect. -/
def claimC9 : Prop :=
  ∀ (cfg : RewriteConfig) (rst : RewriterState) (m : Metrics) (host : Str),
    (∀ r, (handleHttpRewritePhase cfg rst m host).1 = some r → r.pfx ≠ [] →
        (handleHttpRewritePhase cfg rst m host).2.1.sni_map =
          mapInsert rst.sni_map host r.target_hostname ∧
        (handleHttpRewritePhase cfg rst m host).2.2.sni_rewrites =
          m.sni_rewrites + 1)
    ∧ (((handleHttpRewritePhase cfg rst m host).1 = none ∨
        (∃ r, (handleHttpRewritePhase cfg rst m host).1 = some r ∧ r.pfx = [])) →
        (handleHttpRewritePhase cfg rst m host).2.1 = rst ∧
        (handleHttpRewritePhase cfg rst m host).2.2 = m)

/-- C9 counterexample: a passthrough rewrite (hostname `foo.bar`, no
matching base domain, passthrough strategy) does not touch the cache but
still increments `sni_rewrites`, because `handle_http_request` records
the metric for every `Some` result. -/
theorem C9_rewrite_effects_counterexample : ¬ claimC9 := by
  intro hcl
  have h := ((hcl cfgPass ⟨[]⟩ Metrics.new (str "foo.bar")).2
      (Or.inr ⟨⟨str "foo.bar", [], str "foo.bar"⟩, by decide, rfl⟩)).2
  have h2 : (handleHttpRewritePhase cfgPass ⟨[]⟩ Metrics.new
      (str "foo.bar")).2.2.sni_rewrites = 0 := by rw [h]; rfl
  exact absurd h2 (by decide)

/-- C9 (amended).  A successful rewrite (non-empty prefix) inserts the
cache mapping and records exactly one SNI rewrite; a failed rewrite
performs neither effect; a passthrough rewrite leaves the cache
unchanged but still records one SNI rewrite. -/
theorem C9_rewrite_effects_amended (cfg : RewriteConfig)
    (rst : RewriterState) (m : Metrics) (host : Str) :
    (∀ r, (handleHttpRewritePhase cfg rst m host).1 = some r → r.pfx ≠ [] →
        (handleHttpRewritePhase cfg rst m host).2.1.sni_map =
          mapInsert rst.sni_map host r.target_hostname ∧
        (handleHttpRewritePhase cfg rst m host).2.2 = record_sni_rewrite m)
    ∧ ((handleHttpRewritePhase cfg rst m host).1 = none →
        (handleHttpRewritePhase cfg rst m host).2.1 = rst ∧
        (handleHttpRewritePhase cfg rst m host).2.2 = m)
    ∧ (∀ r, (handleHttpRewritePhase cfg rst m host).1 = some r → r.pfx = [] →
        (handleHttpRewritePhase cfg rst m host).2.1 = rst ∧
        (handleHttpRewritePhase cfg rst m host).2.2 = record_sni_rewrite m) := by
  rcases rewrite_cases cfg rst host with ⟨hr1, hr2⟩ | ⟨hr1, hr2, _⟩ |
    ⟨p, hx, hr1, hr2⟩
  · refine ⟨?_, ?_, ?_⟩
    · intro r hr
      rw [phase_eq_none hr1] at hr
      exact absurd hr (by simp)
    · intro _
      rw [phase_eq_none hr1, hr2]
      exact ⟨rfl, rfl⟩
    · intro r hr
      rw [phase_eq_none hr1] at hr
      exact absurd hr (by simp)
  · refine ⟨?_, ?_, ?_⟩
    · intro r hr hpfx
      rw [phase_eq_some hr1] at hr
      simp only [Prod.fst] at hr
      injection hr with hr
      subst hr
      exact absurd rfl hpfx
    · intro hnone
      rw [phase_eq_some hr1] at hnone
      exact absurd hnone (by simp)
    · intro r hr _
      rw [phase_eq_some hr1, hr2]
      exact ⟨rfl, rfl⟩
  · refine ⟨?_, ?_, ?_⟩
    · intro r hr _
      rw [phase_eq_some hr1] at hr ⊢
      simp only [Prod.fst] at hr
      injection hr with hr
      subst hr
      rw [hr2]
      exact ⟨rfl, rfl⟩
    · intro hnone
      rw [phase_eq_some hr1] at hnone
      exact absurd hnone (by simp)
    · intro r hr hpfx
      rw [phase_eq_some hr1] at hr
      simp only [Prod.fst] at hr
      injection hr with hr
      subst hr
      simp only [RewriteResult.pfx] at hpfx
      obtain ⟨b, hb, hm⟩ := extractPfx_some_exists hx
      obtain ⟨hpne, _⟩ := matchBase_eq_some.mp hm
      exact absurd hpfx hpne

/-- Witness for C9 (amended): a matching hostname inserts the mapping
and records the metric; a non-matching hostname under the error
strategy does neither. -/
theorem C9_rewrite_effects_amended_witness :
    ((handleHttpRewritePhase cfgErr ⟨[]⟩ Metrics.new
        (str "www.example.org")).2.1.sni_map =
      mapInsert [] (str "www.example.org") (str "www.example.cn") ∧
     (handleHttpRewritePhase cfgErr ⟨[]⟩ Metrics.new
        (str "www.example.org")).2.2 = record_sni_rewrite Metrics.new) ∧
    ((handleHttpRewritePhase cfgErr ⟨[]⟩ Metrics.new (str "nomatch")).2.1 =
        ⟨[]⟩ ∧
     (handleHttpRewritePhase cfgErr ⟨[]⟩ Metrics.new (str "nomatch")).2.2 =
        Metrics.new) :=
  ⟨(C9_rewrite_effects_amended cfgErr ⟨[]⟩ Metrics.new
      (str "www.example.org")).1
      ⟨str "www.example.org", str "www", str "www.example.cn"⟩
      (by decide) (by decide),
   (C9_rewrite_effects_amended cfgErr ⟨[]⟩ Metrics.new
      (str "nomatch")).2.1 (by decide)⟩

/-! ### Claim theorems: HTTP header forwarding (C5) -/

theorem mem_hmInsert {m : List (Str × Str)} {k0 v0 k v : Str} :
    (k, v) ∈ hmInsert m k0 v0 ↔
      (k = k0 ∧ v = v0) ∨ (k ≠ k0 ∧ (k, v) ∈ m) := by
  unfold hmInsert
  rw [List.mem_append]
  constructor
  · rintro (hm | hm)
    · have h2 := List.mem_filter.mp hm
      refine Or.inr ⟨?_, h2.1⟩
      have hb := h2.2
      simpa using hb
    · have heq := List.mem_singleton.mp hm
      injection heq with hk hv
      exact Or.inl ⟨hk, hv⟩
  · rintro (⟨rfl, rfl⟩ | ⟨hne, hm⟩)
    · exact Or.inr (List.mem_singleton.mpr rfl)
    · exact Or.inl (List.mem_filter.mpr ⟨hm, by simpa using hne⟩)

theorem hmInsert_not_mem_key {m : List (Str × Str)} {k0 v0 : Str}
    (h : k0 ∉ m.map Prod.fst) : hmInsert m k0 v0 = m ++ [(k0, v0)] := by
  unfold hmInsert
  have hf : m.filter (fun kv => decide (kv.1 ≠ k0)) = m := by
    rw [List.filter_eq_self]
    intro a ha
    simp only [decide_eq_true_eq]
    intro heq
    exact h (heq ▸ List.mem_map_of_mem Prod.fst ha)
  rw [hf]

theorem foldl_copy_mem (client : List (Str × Str)) :
    ∀ acc : List (Str × Str),
      (acc.map Prod.fst ++ client.map Prod.fst).Nodup →
      ∀ k v, ((k, v) ∈ client.foldl (fun a kv => hmInsert a kv.1 kv.2) acc ↔
        (k, v) ∈ acc ∨ (k, v) ∈ client) := by
  induction client with
  | nil => intro acc _ k v; simp
  | cons kv0 rest ih =>
      intro acc hnd k v
      have hnd2 : (acc.map Prod.fst ++ (kv0.1 :: rest.map Prod.fst)).Nodup := by
        simpa using hnd
      obtain ⟨hndA, hndB, hdisj⟩ := List.nodup_append.mp hnd2
      have hk0 : kv0.1 ∉ acc.map Prod.fst :=
        fun hmem => hdisj hmem (List.mem_cons_self _ _)
      have hstep : hmInsert acc kv0.1 kv0.2 = acc ++ [(kv0.1, kv0.2)] :=
        hmInsert_not_mem_key hk0
      have hnd3 : ((hmInsert acc kv0.1 kv0.2).map Prod.fst ++
          rest.map Prod.fst).Nodup := by
        rw [hstep, List.map_append, List.append_assoc]
        simpa using hnd2
      rw [List.foldl_cons, ih _ hnd3 k v, hstep]
      constructor
      · rintro (hm | hm)
        · rw [List.mem_append] at hm
          rcases hm with hm | hm
          · exact Or.inl hm
          · have heq := List.mem_singleton.mp hm
            right
            rw [heq]
            exact List.mem_cons_self _ _
        · exact Or.inr (List.mem_cons_of_mem _ hm)
      · rintro (hm | hm)
        · exact Or.inl (List.mem_append_left _ hm)
        · rcases List.mem_cons.mp hm with heq | hm2
          · left
            apply List.mem_append_right
            rw [heq]
            exact List.mem_singleton.mpr rfl
          · exact Or.inr hm2

theorem foldl_skip_mem (client : List (Str × Str)) :
    ∀ acc : List (Str × Str),
      (acc.map Prod.fst ++ client.map Prod.fst).Nodup →
      ∀ k v, ((k, v) ∈ client.foldl
          (fun a kv => if kv.1 ∈ skipHeaders then a else hmInsert a kv.1 kv.2)
          acc ↔
        (k, v) ∈ acc ∨ ((k, v) ∈ client ∧ k ∉ skipHeaders)) := by
  induction client with
  | nil => intro acc _ k v; simp
  | cons kv0 rest ih =>
      intro acc hnd k v
      have hnd2 : (acc.map Prod.fst ++ (kv0.1 :: rest.map Prod.fst)).Nodup := by
        simpa using hnd
      obtain ⟨hndA, hndB, hdisj⟩ := List.nodup_append.mp hnd2
      rw [List.foldl_cons]
      by_cases hskip : kv0.1 ∈ skipHeaders
      · rw [if_pos hskip]
        have hndrest : (acc.map Prod.fst ++ rest.map Prod.fst).Nodup :=
          List.Nodup.sublist
            (List.Sublist.append_left (List.sublist_cons_self _ _) _) hnd2
        rw [ih acc hndrest k v]
        constructor
        · rintro (hm | ⟨hm, hns⟩)
          · exact Or.inl hm
          · exact Or.inr ⟨List.mem_cons_of_mem _ hm, hns⟩
        · rintro (hm | ⟨hm, hns⟩)
          · exact Or.inl hm
          · rcases List.mem_cons.mp hm with heq | hm2
            · have hk : k = kv0.1 := by rw [← heq]
              exact absurd (by rw [hk]; exact hskip) hns
            · exact Or.inr ⟨hm2, hns⟩
      · rw [if_neg hskip]
        have hk0 : kv0.1 ∉ acc.map Prod.fst :=
          fun hmem => hdisj hmem (List.mem_cons_self _ _)
        have hstep : hmInsert acc kv0.1 kv0.2 = acc ++ [(kv0.1, kv0.2)] :=
          hmInsert_not_mem_key hk0
        have hnd3 : ((hmInsert acc kv0.1 kv0.2).map Prod.fst ++
            rest.map Prod.fst).Nodup := by
          rw [hstep, List.map_append, List.append_assoc]
          simpa using hnd2
        rw [ih _ hnd3 k v, hstep]
        constructor
        · rintro (hm | ⟨hm, hns⟩)
          · rw [List.mem_append] at hm
            rcases hm with hm | hm
            · exact Or.inl hm
            · have heq := List.mem_singleton.mp hm
              injection heq with hk hv
              subst hk
              subst hv
              refine Or.inr ⟨List.mem_cons_self _ _, hskip⟩
          · exact Or.inr ⟨List.mem_cons_of_mem _ hm, hns⟩
        · rintro (hm | ⟨hm, hns⟩)
          · exact Or.inl (List.mem_append_left _ hm)
          · rcases List.mem_cons.mp hm with heq | hm2
            · left
              apply List.mem_append_right
              rw [heq]
              exact List.mem_singleton.mpr rfl
            · exact Or.inr ⟨hm2, hns⟩

/-- The proposition C5 claims of a header-forwarding function: the
forwarded map is exactly the client headers minus `host`, `connection`,
`keep-alive`, `transfer-encoding`, with `host` then set to the target
hostname. -/
def claimC5 (fwd : List (Str × Str) → Str → List (Str × Str)) : Prop :=
  ∀ (client : List (Str × Str)) (target : Str),
    (client.map Prod.fst).Nodup →
    ∀ k v, ((k, v) ∈ fwd client target ↔
      (k = str "host" ∧ v = target) ∨
      (k ∉ skipHeaders ∧ (k, v) ∈ client))

/-- C5 counterexample: the DoH front-end copies the `connection` header
to the upstream request, although the claim says it is excluded. -/
theorem C5_doh_headers_counterexample : ¬ claimC5 dohForwardHeaders := by
  intro hcl
  have h := (hcl [(str "connection", str "close")] (str "t") (by decide)
      (str "connection") (str "close")).mp (by decide)
  rcases h with ⟨hk, _⟩ | ⟨hns, _⟩
  · exact absurd hk (by decide)
  · exact absurd (by decide : str "connection" ∈ skipHeaders) hns

/-- C5 (amended).  The pooled upstream path `forward_http_request`
forwards exactly the client headers minus the four skip headers with
`host` set to the target; the DoH front-end
(`handle_get_request` / `handle_post_request`) copies every client
header unfiltered and only overwrites `host`. -/
theorem C5_forward_headers_amended :
    claimC5 forwardHttpHeaders ∧
    (∀ (client : List (Str × Str)) (target : Str),
        (client.map Prod.fst).Nodup →
        ∀ k v, ((k, v) ∈ dohForwardHeaders client target ↔
          (k = str "host" ∧ v = target) ∨
          (k ≠ str "host" ∧ (k, v) ∈ client))) := by
  constructor
  · intro client target hnd k v
    unfold forwardHttpHeaders
    rw [mem_hmInsert, foldl_skip_mem client [] (by simpa using hnd) k v]
    simp only [List.not_mem_nil, false_or]
    constructor
    · rintro (⟨rfl, rfl⟩ | ⟨hne, hm, hns⟩)
      · exact Or.inl ⟨rfl, rfl⟩
      · exact Or.inr ⟨hns, hm⟩
    · rintro (⟨rfl, rfl⟩ | ⟨hns, hm⟩)
      · exact Or.inl ⟨rfl, rfl⟩
      · refine Or.inr ⟨?_, hm, hns⟩
        intro heq
        exact hns (heq ▸ (by decide : str "host" ∈ skipHeaders))
  · intro client target hnd k v
    unfold dohForwardHeaders
    rw [mem_hmInsert, foldl_copy_mem client [] (by simpa using hnd) k v]
    simp only [List.not_mem_nil, false_or]

/-- Witness for C5 (amended) on a client with an `accept` and a
`connection` header. -/
theorem C5_forward_headers_amended_witness :
    ((str "accept", str "x") ∈
        forwardHttpHeaders
          [(str "accept", str "x"), (str "connection", str "close")]
          (str "t") ↔
      (str "accept" = str "host" ∧ str "x" = str "t") ∨
      (str "accept" ∉ skipHeaders ∧
        (str "accept", str "x") ∈
          [(str "accept", str "x"), (str "connection", str "close")])) ∧
    ((str "connection", str "close") ∈
        dohForwardHeaders
          [(str "accept", str "x"), (str "connection", str "close")]
          (str "t") ↔
      (str "connection" = str "host" ∧ str "close" = str "t") ∨
      (str "connection" ≠ str "host" ∧
        (str "connection", str "close") ∈
          [(str "accept", str "x"), (str "connection", str "close")])) :=
  ⟨C5_forward_headers_amended.1
      [(str "accept", str "x"), (str "connection", str "close")] (str "t")
      (by decide) (str "accept") (str "x"),
   C5_forward_headers_amended.2
      [(str "accept", str "x"), (str "connection", str "close")] (str "t")
      (by decide) (str "connection") (str "close")⟩
